import Mathlib

/-!
Verification development for the b2-go incremental backup tool.

The definitions below are a shallow embedding of the Go sources
(`main.go`, `file_scanner.go`, and the state/storage/orchestrator parts):
pure string manipulation is translated function by function, filesystem
and remote-storage effects are made explicit (the directory walk is a list
of regular files, the remote bucket is a list of objects, per-call success
of the storage collaborator is an oracle function), and timestamps are
modelled as integers (seconds).  The SHA1 content digest is abstracted as
an explicit function argument `hash : String -> String`; the code only
ever compares digests for equality.
-/

namespace B2Go

/-! ## String helpers (embedding of the Go strings/path functions used) -/

/-- Embedding of `filepath.ToSlash`.  On Linux the path separator is `/`,
so `ToSlash` is the identity; paths in this development are slash paths. -/
def toSlash (path : String) : String := path

/-- Embedding of `strings.TrimSpace` (ASCII whitespace; the Go version also
trims rare non-ASCII space runes, which never occur in exclude patterns). -/
def trimSpace (s : String) : String :=
  String.mk (((s.toList.dropWhile Char.isWhitespace).reverse.dropWhile
    Char.isWhitespace).reverse)

/-- Embedding of `strings.Contains(s, "/")`. -/
def containsSlash (s : String) : Bool := s.toList.contains '/'

/-- Embedding of `strings.HasSuffix(s, "/")`. -/
def endsWithSlash (s : String) : Bool := s.toList.getLast? = some '/'

/-- Embedding of `strings.TrimSuffix(s, "/")`: drop one trailing slash. -/
def trimSuffixSlash (s : String) : String :=
  if endsWithSlash s then String.mk s.toList.dropLast else s

/-- Character-list version of `strings.HasPrefix`. -/
def charsHavePfx : List Char → List Char → Bool
  | [], _ => true
  | _ :: _, [] => false
  | a :: as, b :: bs => a = b && charsHavePfx as bs

/-- Embedding of `strings.HasPrefix(s, pre)`. -/
def strHasPfx (pre s : String) : Bool := charsHavePfx pre.toList s.toList

/-- Embedding of `strings.TrimPrefix(s, pre)`. -/
def trimPfxStr (pre s : String) : String :=
  if strHasPfx pre s then String.mk (s.toList.drop pre.toList.length) else s

/-- Embedding of `filepath.Base` for slash paths (on Linux the volume name
is always empty): empty path gives ".", trailing slashes are stripped, the
last path element is returned, and "/" results if nothing remains. -/
def base (p : String) : String :=
  if p = "" then "."
  else
    let stripped := ((p.toList.reverse.dropWhile (· = '/')).reverse)
    let tail := (stripped.reverse.takeWhile (· ≠ '/')).reverse
    if stripped.isEmpty then "/"
    else if tail.isEmpty then "/" else String.mk tail

/-! ## Glob matching (embedding of Go `path/filepath.Match`)

`filepath.Match` on Linux matches `*` and `?` against non-separator
characters only, supports `[...]` classes (with `^` negation, `-` ranges
and `\` escapes, a class may match `/`) and `\` escapes, and reports an
error on a malformed pattern.  Every call site in the source discards the
error (`matched, _ := filepath.Match(...)`), so a malformed pattern counts
as "no match"; the embedding therefore returns `false` there.  The
matcher below recognises exactly the same language by direct recursion
(the Go implementation factors the pattern into star-separated chunks;
chunks contain no stars, so its one-level backtracking search over chunk
positions decides the same matches as full backtracking). -/

/-- Embedding of the Go helper `getEsc`: read one class element,
failing (like `ErrBadPattern`) on a leading `-` or `]`, on a dangling
escape, and when nothing is left for the closing bracket. -/
def getEsc : List Char → Option (Char × List Char)
  | [] => none
  | c :: rest =>
    if c = '-' || c = ']' then none
    else if c = '\\' then
      match rest with
      | [] => none
      | e :: rest2 => if rest2.isEmpty then none else some (e, rest2)
    else if rest.isEmpty then none else some (c, rest)

/-- Parse the body of a `[...]` class into its list of ranges (single
characters become degenerate ranges), returning the remainder of the
pattern after `]`; `none` models `ErrBadPattern`.  The class must contain
at least one range before `]` (the `nrange > 0` check in Go).  The fuel
argument bounds the recursion; callers pass `length + 1`, which always
suffices since every step consumes at least one character. -/
def classRanges : Nat → List Char → Nat → Option (List (Char × Char) × List Char)
  | 0, _, _ => none
  | _ + 1, ']' :: rest, _ + 1 => some ([], rest)
  | fuel + 1, chunk, nrange =>
    match getEsc chunk with
    | none => none
    | some (lo, chunk1) =>
      match chunk1 with
      | '-' :: chunk2 =>
        match getEsc chunk2 with
        | none => none
        | some (hi, chunk3) =>
          match classRanges fuel chunk3 (nrange + 1) with
          | none => none
          | some (ranges, rest) => some ((lo, hi) :: ranges, rest)
      | _ =>
        match classRanges fuel chunk1 (nrange + 1) with
        | none => none
        | some (ranges, rest) => some ((lo, lo) :: ranges, rest)

/-- Does character `r` fall in one of the class ranges? -/
def inClassRanges (r : Char) : List (Char × Char) → Bool
  | [] => false
  | (lo, hi) :: rest => (lo ≤ r && r ≤ hi) || inClassRanges r rest

/-- Core matcher over character lists.  The fuel argument bounds the
recursion; `filepathMatch` passes `|pattern| + |name| + 1`, which always
suffices since every recursive call shortens `pattern ++ name`. -/
def matchChars : Nat → List Char → List Char → Bool
  | 0, _, _ => false
  | fuel + 1, pat, name =>
    match pat, name with
    | [], [] => true
    | [], _ :: _ => false
    | '*' :: ps, ns =>
      matchChars fuel ps ns ||
        (match ns with
         | [] => false
         | n :: ns2 => if n = '/' then false else matchChars fuel ('*' :: ps) ns2)
    | '?' :: _, [] => false
    | '?' :: ps, n :: ns => if n = '/' then false else matchChars fuel ps ns
    | '[' :: _, [] => false
    | '[' :: ps, n :: ns =>
      (match ps with
       | '^' :: ps2 =>
         match classRanges (ps2.length + 1) ps2 0 with
         | none => false
         | some (ranges, rest) =>
           if inClassRanges n ranges then false else matchChars fuel rest ns
       | _ =>
         match classRanges (ps.length + 1) ps 0 with
         | none => false
         | some (ranges, rest) =>
           if inClassRanges n ranges then matchChars fuel rest ns else false)
    | '\\' :: c :: ps, n :: ns => if c = n then matchChars fuel ps ns else false
    | '\\' :: _, _ => false
    | c :: ps, n :: ns => if c = n then matchChars fuel ps ns else false
    | _ :: _, [] => false

/-- Embedding of `filepath.Match(pattern, name)` with the error discarded,
as at every call site in the source (`matched, _ := filepath.Match(...)`). -/
def filepathMatch (pattern name : String) : Bool :=
  matchChars (pattern.toList.length + name.toList.length + 1)
    pattern.toList name.toList

/-! ## Path exclusion (embedding of `isExcluded`, main.go lines 110-151) -/

/-- Embedding of `isExcluded(path, patterns)`: each pattern is trimmed;
empty patterns are skipped; a pattern ending in `/` excludes the directory
itself, everything under it, and anything the whole pattern glob-matches;
a pattern containing `/` is glob-matched against the full relative path;
any other pattern is glob-matched against the path's base name. -/
def isExcluded (path : String) (patterns : List String) : Bool :=
  let relPath := toSlash path
  patterns.any fun rawPattern =>
    let pattern := trimSpace rawPattern
    if pattern = "" then false
    else if endsWithSlash pattern then
      let dirPattern := trimSuffixSlash pattern
      strHasPfx (dirPattern ++ "/") relPath || relPath == dirPattern ||
        filepathMatch pattern relPath
    else if containsSlash pattern then
      filepathMatch pattern relPath
    else
      filepathMatch pattern (base relPath)

/-! ## Data model (embedding of the structs in main.go lines 22-56)

Only the `Config` fields the core synchronization engine reads are kept
(credentials and SMTP settings are consumed by external collaborators).
`BackupPfx` embeds the source's backup-prefix field.  Timestamps and
sizes are integers; `time.After` is strict `>` and `time.Before` is
strict `<`. -/

structure Config where
  SourceDir : String
  RetentionDays : Int
  ExcludePatterns : List String
  SyncDelete : Bool
  BackupPfx : String
  LocalStatePath : String
  EnableMetadataCheck : Bool
  MetadataStrategy : String
  deriving Repr, DecidableEq

/-- Embedding of `FileState` (one manifest record). -/
structure FileState where
  Path : String
  Size : Int
  ModTime : Int
  Checksum : String
  BackedUp : Bool
  deriving Repr, DecidableEq

/-! Go's `map[string]*FileState` is modelled as an association list with
first-match lookup; `mapSet` overwrites the binding in place (Go map
assignment) and `mapDel` removes it (Go `delete`). -/

/-- Lookup in an association list (Go map read `m[k]`). -/
def mapGet {α : Type} : List (String × α) → String → Option α
  | [], _ => none
  | (k, v) :: rest, p => if k = p then some v else mapGet rest p

/-- Update or insert in an association list (Go map write `m[k] = v`). -/
def mapSet {α : Type} : List (String × α) → String → α → List (String × α)
  | [], p, v => [(p, v)]
  | (k, w) :: rest, p, v =>
    if k = p then (p, v) :: rest else (k, w) :: mapSet rest p v

/-- Remove a key from an association list (Go `delete(m, k)`). -/
def mapDel {α : Type} : List (String × α) → String → List (String × α)
  | [], _ => []
  | (k, w) :: rest, p =>
    if k = p then mapDel rest p else (k, w) :: mapDel rest p

/-- Embedding of `LocalState` (the manifest). -/
structure LocalState where
  LastBackup : Int
  Files : List (String × FileState)
  deriving Repr, DecidableEq

/-- One regular file of the source tree as seen by `filepath.Walk`:
its path relative to the source root (slash-normalized), its stat data,
and its byte content (a `String`; only its digest is ever inspected).
Directories are skipped by the walk callback (`info.IsDir()`), so the
walk is modelled as the list of regular files in walk order. -/
structure FsFile where
  relPath : String
  size : Int
  modTime : Int
  content : String
  deriving Repr, DecidableEq

/-! ## Manifest persistence (embedding of loadLocalState, main.go 170-194) -/

/-- Outcome of opening and decoding the persisted manifest file, the
external filesystem collaborator of `loadLocalState`: the file may be
absent (`os.IsNotExist`), may fail to open for another reason, may fail
to decode as JSON, or may decode to a state. -/
inductive StateFileDisk where
  | absent : StateFileDisk
  | unreadable : StateFileDisk
  | corrupt : StateFileDisk
  | parsed : LocalState → StateFileDisk
  deriving Repr, DecidableEq

/-- The empty manifest `loadLocalState` starts from: no records, zero
`LastBackup` (the Go zero `time.Time`). -/
def emptyLocalState : LocalState := { LastBackup := 0, Files := [] }

/-- Embedding of `loadLocalState`: an empty configured path or an absent
file yields the empty state; an open failure other than non-existence, or
a JSON decode failure, is an error; otherwise the decoded state. -/
def loadLocalState (config : Config) (disk : StateFileDisk) :
    Except Unit LocalState :=
  if config.LocalStatePath = "" then .ok emptyLocalState
  else
    match disk with
    | .absent => .ok emptyLocalState
    | .unreadable => .error ()
    | .corrupt => .error ()
    | .parsed s => .ok s

/-! ## Change detection (embedding of scanAndCompareFiles,
main.go 214-289 / file_scanner.go 27-102; both variants are identical) -/

/-- The walk callback body for one regular file.  Note the order of
operations in the source: the checksum is computed (main.go line 241)
before the `modified` test (lines 248-251), and the `modified` test
includes checksum inequality. -/
def scanStep (hash : String → String) (patterns : List String)
    (acc : LocalState × List FileState) (f : FsFile) :
    LocalState × List FileState :=
  let state := acc.1
  let changedFiles := acc.2
  if isExcluded f.relPath patterns then acc
  else
    let checksum := hash f.content
    match mapGet state.Files f.relPath with
    | some existing =>
      if f.modTime > existing.ModTime ∨ f.size ≠ existing.Size ∨
          checksum ≠ existing.Checksum then
        if checksum = existing.Checksum then
          -- content unchanged, only metadata moved (main.go 261-268)
          let touched :=
            { existing with
              ModTime := f.modTime
              Size := f.size
              BackedUp := true }
          ({ state with Files := mapSet state.Files f.relPath touched },
           changedFiles)
        else
          -- genuine change (main.go 271-283)
          let fileState : FileState :=
            ⟨f.relPath, f.size, f.modTime, checksum, false⟩
          ({ state with Files := mapSet state.Files f.relPath fileState },
           changedFiles ++ [fileState])
      else
        -- not modified (main.go 253-258)
        let touched := { existing with BackedUp := true }
        ({ state with Files := mapSet state.Files f.relPath touched },
         changedFiles)
    | none =>
      -- record absent: new file (main.go 271-283)
      let fileState : FileState :=
        ⟨f.relPath, f.size, f.modTime, checksum, false⟩
      ({ state with Files := mapSet state.Files f.relPath fileState },
       changedFiles ++ [fileState])

/-- Embedding of `scanAndCompareFiles`: fold the walk callback over the
regular files of the source tree in walk order, starting from the loaded
state and an empty changed-file list. -/
def scanAndCompareFiles (hash : String → String) (patterns : List String)
    (fs : List FsFile) (state : LocalState) :
    LocalState × List FileState :=
  fs.foldl (scanStep hash patterns) (state, [])

/-! ## Remote store model

The bucket listing is a list of objects (full object name and upload
timestamp).  The outcomes of the storage collaborator's calls are
oracles: `uploadErr relPath` is whether `uploadFileToB2` returns an
error for that file, `deleteOk name` is whether `obj.Delete` succeeds
for the object of that name (used both by sync-delete and by the
retention sweep), and `attrsOk name` is whether `obj.Attrs` succeeds
during the retention sweep. -/

structure RemoteObject where
  Name : String
  UploadTimestamp : Int
  deriving Repr, DecidableEq

/-- Embedding of `getB2Files` (main.go 292-317): index the listing by the
object name with the backup prefix trimmed; later listing entries
overwrite earlier ones exactly as repeated Go map writes would. -/
def getB2Files (config : Config) (remote : List RemoteObject) :
    List (String × RemoteObject) :=
  remote.foldl
    (fun fileMap obj => mapSet fileMap (trimPfxStr config.BackupPfx obj.Name) obj)
    []

/-- Run-level counters (the `stats` map in main.go 639-644). -/
structure Stats where
  uploaded : Nat
  deleted : Nat
  skipped : Nat
  failed : Nat
  deriving Repr, DecidableEq

/-! ## Upload loop (main.go 646-658)

On an upload error the failure counter is incremented and the record is
left untouched (its `BackedUp` flag stays as the scan left it); on
success the upload counter is incremented and `fileState.BackedUp = true`
is set — the record is shared with the manifest map, so the manifest
entry is updated too. -/

def uploadStep (uploadErr : String → Bool)
    (acc : LocalState × Stats) (fileState : FileState) : LocalState × Stats :=
  if uploadErr fileState.Path then
    (acc.1, { acc.2 with failed := acc.2.failed + 1 })
  else
    let marked := { fileState with BackedUp := true }
    ({ acc.1 with Files := mapSet acc.1.Files fileState.Path marked },
     { acc.2 with uploaded := acc.2.uploaded + 1 })

/-- The whole upload loop over the changed-file list, in order. -/
def uploadPhase (uploadErr : String → Bool) (changedFiles : List FileState)
    (state : LocalState) (stats : Stats) : LocalState × Stats :=
  changedFiles.foldl (uploadStep uploadErr) (state, stats)

/-! ## Deletion propagation (main.go 661-687) -/

/-- Accumulator of the sync-delete loop: the manifest, the counters, and
the names of the remote objects deleted so far. -/
structure DelAcc where
  state : LocalState
  stats : Stats
  deletedNames : List String
  deriving Repr, DecidableEq

/-- Does `os.Stat(filepath.Join(sourceDir, relPath))` find a file?  In the
model: is there a regular file at this relative path in the source tree. -/
def fileExistsLocally (fs : List FsFile) (relPath : String) : Bool :=
  fs.any fun f => f.relPath = relPath

/-- One iteration of the sync-delete loop for a manifest path: if the
file still exists locally nothing happens; if it is excluded it is
counted skipped; otherwise, if a remote object is indexed under the path,
it is deleted — on success the deleted counter is incremented and the
path removed from the manifest, on failure the failed counter is
incremented; with no remote object nothing happens at all. -/
def syncDeleteStep (config : Config) (fs : List FsFile)
    (b2Files : List (String × RemoteObject)) (deleteOk : String → Bool)
    (acc : DelAcc) (relPath : String) : DelAcc :=
  if fileExistsLocally fs relPath then acc
  else if isExcluded relPath config.ExcludePatterns then
    { acc with stats := { acc.stats with skipped := acc.stats.skipped + 1 } }
  else
    match mapGet b2Files relPath with
    | some remoteFile =>
      if deleteOk remoteFile.Name then
        { state := { acc.state with
            Files := mapDel acc.state.Files relPath }
          stats := { acc.stats with deleted := acc.stats.deleted + 1 }
          deletedNames := remoteFile.Name :: acc.deletedNames }
      else
        { acc with stats := { acc.stats with failed := acc.stats.failed + 1 } }
    | none => acc

/-- The whole sync-delete loop: iterate over the manifest's keys (the
range over `localState.Files`; only the key under iteration is ever
deleted, so the iteration covers exactly the keys present at entry). -/
def syncDeletePhase (config : Config) (fs : List FsFile)
    (b2Files : List (String × RemoteObject)) (deleteOk : String → Bool)
    (state : LocalState) (stats : Stats) : DelAcc :=
  (state.Files.map Prod.fst).foldl
    (syncDeleteStep config fs b2Files deleteOk)
    ⟨state, stats, []⟩

/-! ## Retention sweep (manageRetention, main.go 476-513) -/

/-- Embedding of `manageRetention`: the cutoff is `now` minus
`RetentionDays` days (86400 seconds each, the `AddDate(0, 0, -d)` of the
source on the seconds timeline); every listed object whose name carries
the backup prefix, whose attributes can be fetched, and whose upload
timestamp is strictly before the cutoff is deleted — a failed delete is
only logged, so the object survives.  The result is the surviving
listing. -/
def manageRetention (config : Config) (now : Int)
    (attrsOk deleteOk : String → Bool) (remote : List RemoteObject) :
    List RemoteObject :=
  let retentionCutoff := now - config.RetentionDays * 86400
  remote.filter fun obj =>
    if strHasPfx config.BackupPfx obj.Name = false then true
    else if attrsOk obj.Name = false then true
    else if obj.UploadTimestamp < retentionCutoff then deleteOk obj.Name = false
    else true

/-- The retention phase as gated by the orchestrator (main.go 690-695):
the sweep runs only when the configured retention days are positive. -/
def retentionPhase (config : Config) (now : Int)
    (attrsOk deleteOk : String → Bool) (remote : List RemoteObject) :
    List RemoteObject :=
  if config.RetentionDays > 0 then
    manageRetention config now attrsOk deleteOk remote
  else remote

/-! ## Run orchestration (main, main.go 565-726) -/

/-- Observable outcome of one run: the in-memory manifest at exit, the
manifest contents written to disk (`none` when `saveLocalState` was never
called), the remote listing after all deletions, the counters, whether
the bucket was listed at all, which files the upload loop attempted, and
the process exit status. -/
structure RunResult where
  finalState : LocalState
  savedState : Option LocalState
  remote : List RemoteObject
  stats : Stats
  listedB2 : Bool
  uploadAttempts : List String
  exitCode : Nat
  deriving Repr, DecidableEq

/-- The rest of the run once the scan found a non-empty changed-file
list (main.go 617-725): list the bucket, upload every changed file,
propagate deletions when sync-delete is enabled, run the retention
sweep when retention is positive, stamp `LastBackup`, save the state,
and exit non-zero exactly when the failure counter is non-zero. -/
def runAfterScan (config : Config) (fs : List FsFile)
    (remote : List RemoteObject) (uploadErr deleteOk attrsOk : String → Bool)
    (now : Int) (localState : LocalState) (changedFiles : List FileState) :
    RunResult :=
  let b2Files := getB2Files config remote
  let up := uploadPhase uploadErr changedFiles localState ⟨0, 0, 0, 0⟩
  let afterDel :=
    if config.SyncDelete then
      syncDeletePhase config fs b2Files deleteOk up.1 up.2
    else ⟨up.1, up.2, []⟩
  let remote1 := remote.filter fun o => o.Name ∉ afterDel.deletedNames
  let remote2 := retentionPhase config now attrsOk deleteOk remote1
  let finalState := { afterDel.state with LastBackup := now }
  { finalState := finalState
    savedState := some finalState
    remote := remote2
    stats := afterDel.stats
    listedB2 := true
    uploadAttempts := changedFiles.map FileState.Path
    exitCode := if afterDel.stats.failed = 0 then 0 else 1 }

/-- Embedding of `main` from the loaded state on (configuration loading
and validation precede; `state0` is the manifest `loadLocalState`
produced): scan for changes, and if nothing changed return immediately —
no bucket connection, no listing, no uploads, no deletion propagation,
no retention, no state save; otherwise run the full pipeline. -/
def runBackup (hash : String → String) (config : Config) (fs : List FsFile)
    (state0 : LocalState) (remote : List RemoteObject)
    (uploadErr deleteOk attrsOk : String → Bool) (now : Int) : RunResult :=
  let scanned := scanAndCompareFiles hash config.ExcludePatterns fs state0
  if scanned.2.isEmpty then
    { finalState := scanned.1
      savedState := none
      remote := remote
      stats := ⟨0, 0, 0, 0⟩
      listedB2 := false
      uploadAttempts := []
      exitCode := 0 }
  else
    runAfterScan config fs remote uploadErr deleteOk attrsOk now
      scanned.1 scanned.2

/-! ## Verification predicates -/

/-- A manifest is synchronized with a walk file when the file is excluded
(and thus never touched) or its record stores the file's current size and
digest and an mtime at least the file's.  After one scan every walk file
is synchronized, and a scan over synchronized files reports no changes. -/
def synced (hash : String → String) (patterns : List String)
    (st : LocalState) (f : FsFile) : Prop :=
  isExcluded f.relPath patterns = true ∨
    ∃ r : FileState, mapGet st.Files f.relPath = some r ∧
      r.Size = f.size ∧ r.Checksum = hash f.content ∧ ¬ f.modTime > r.ModTime

/-! ## Association-map lemmas -/

theorem mapGet_mapSet_self {α : Type} (m : List (String × α)) (p : String)
    (v : α) : mapGet (mapSet m p v) p = some v := by
  induction m with
  | nil => simp [mapSet, mapGet]
  | cons hd tl ih =>
    obtain ⟨k, w⟩ := hd
    by_cases h : k = p
    · simp [mapSet, h, mapGet]
    · simp [mapSet, h, mapGet, ih]

theorem mapGet_mapSet_ne {α : Type} (m : List (String × α)) (p q : String)
    (v : α) (h : q ≠ p) : mapGet (mapSet m p v) q = mapGet m q := by
  have hpq : ¬ p = q := fun he => h he.symm
  induction m with
  | nil => simp [mapSet, mapGet, hpq]
  | cons hd tl ih =>
    obtain ⟨k, w⟩ := hd
    by_cases hk : k = p
    · subst hk
      simp [mapSet, mapGet, hpq]
    · simp [mapSet, hk, mapGet, ih]

theorem mapGet_mapDel_self {α : Type} (m : List (String × α)) (p : String) :
    mapGet (mapDel m p) p = none := by
  induction m with
  | nil => simp [mapDel, mapGet]
  | cons hd tl ih =>
    obtain ⟨k, w⟩ := hd
    by_cases h : k = p
    · simp [mapDel, h, ih]
    · simp [mapDel, h, mapGet, ih]

theorem mapGet_mapDel_ne {α : Type} (m : List (String × α)) (p q : String)
    (h : q ≠ p) : mapGet (mapDel m p) q = mapGet m q := by
  have hpq : ¬ p = q := fun he => h he.symm
  induction m with
  | nil => simp [mapDel]
  | cons hd tl ih =>
    obtain ⟨k, w⟩ := hd
    by_cases hk : k = p
    · subst hk
      simp [mapDel, mapGet, hpq, ih]
    · simp [mapDel, hk, mapGet, ih]

theorem mapGet_mapDel_none {α : Type} (m : List (String × α)) (p q : String)
    (h : mapGet m q = none) : mapGet (mapDel m p) q = none := by
  by_cases hq : q = p
  · subst hq
    exact mapGet_mapDel_self m q
  · rw [mapGet_mapDel_ne m p q hq]
    exact h

theorem mem_keys_of_mapGet_some {α : Type} (m : List (String × α))
    (p : String) (v : α) (h : mapGet m p = some v) : p ∈ m.map Prod.fst := by
  induction m with
  | nil => simp [mapGet] at h
  | cons hd tl ih =>
    obtain ⟨k, w⟩ := hd
    by_cases hk : k = p
    · simp [hk]
    · simp [mapGet, hk] at h
      simp [ih h]

/-! ## String-helper lemmas -/

theorem containsSlash_of_endsWithSlash (s : String)
    (h : endsWithSlash s = true) : containsSlash s = true := by
  have hlast : s.toList.getLast? = some '/' := by
    simpa [endsWithSlash] using h
  have hmem : '/' ∈ s.toList := by
    rcases List.mem_getLast?_eq_getLast (l := s.toList) (x := '/') hlast with
      ⟨hne, heq⟩
    rw [heq]
    exact List.getLast_mem hne
  simpa [containsSlash] using hmem

theorem endsWithSlash_eq_false_of_containsSlash (s : String)
    (h : containsSlash s = false) : endsWithSlash s = false := by
  cases h2 : endsWithSlash s with
  | false => rfl
  | true => rw [containsSlash_of_endsWithSlash s h2] at h; cases h

theorem ne_empty_of_endsWithSlash (s : String)
    (h : endsWithSlash s = true) : s ≠ "" := by
  intro he
  subst he
  simp [endsWithSlash] at h

/-! ## Change-detector lemmas -/

theorem scanStep_excluded (hash : String → String) (patterns : List String)
    (acc : LocalState × List FileState) (f : FsFile)
    (hexcl : isExcluded f.relPath patterns = true) :
    scanStep hash patterns acc f = acc := by
  simp [scanStep, hexcl]

theorem scanStep_none (hash : String → String) (patterns : List String)
    (acc : LocalState × List FileState) (f : FsFile)
    (hexcl : isExcluded f.relPath patterns = false)
    (hget : mapGet acc.1.Files f.relPath = none) :
    scanStep hash patterns acc f =
      ({ acc.1 with Files := mapSet acc.1.Files f.relPath ⟨f.relPath, f.size, f.modTime, hash f.content, false⟩ },
       acc.2 ++ [⟨f.relPath, f.size, f.modTime, hash f.content, false⟩]) := by
  simp [scanStep, hexcl, hget]

theorem scanStep_notModified (hash : String → String) (patterns : List String)
    (acc : LocalState × List FileState) (f : FsFile) (r : FileState)
    (hexcl : isExcluded f.relPath patterns = false)
    (hget : mapGet acc.1.Files f.relPath = some r)
    (hmt : ¬ f.modTime > r.ModTime) (hsz : f.size = r.Size)
    (hchk : hash f.content = r.Checksum) :
    scanStep hash patterns acc f =
      ({ acc.1 with Files := mapSet acc.1.Files f.relPath { r with BackedUp := true } },
       acc.2) := by
  simp [scanStep, hexcl, hget, hmt, hsz, hchk]

theorem scanStep_metaOnly (hash : String → String) (patterns : List String)
    (acc : LocalState × List FileState) (f : FsFile) (r : FileState)
    (hexcl : isExcluded f.relPath patterns = false)
    (hget : mapGet acc.1.Files f.relPath = some r)
    (hchk : hash f.content = r.Checksum)
    (hmod : f.modTime > r.ModTime ∨ f.size ≠ r.Size) :
    scanStep hash patterns acc f =
      ({ acc.1 with Files := mapSet acc.1.Files f.relPath { r with ModTime := f.modTime, Size := f.size, BackedUp := true } },
       acc.2) := by
  rcases hmod with h | h
  · simp [scanStep, hexcl, hget, hchk, h]
  · simp [scanStep, hexcl, hget, hchk, h]

theorem scanStep_contentChanged (hash : String → String)
    (patterns : List String) (acc : LocalState × List FileState) (f : FsFile)
    (r : FileState) (hexcl : isExcluded f.relPath patterns = false)
    (hget : mapGet acc.1.Files f.relPath = some r)
    (hchk : hash f.content ≠ r.Checksum) :
    scanStep hash patterns acc f =
      ({ acc.1 with Files := mapSet acc.1.Files f.relPath ⟨f.relPath, f.size, f.modTime, hash f.content, false⟩ },
       acc.2 ++ [⟨f.relPath, f.size, f.modTime, hash f.content, false⟩]) := by
  simp [scanStep, hexcl, hget, hchk]

theorem scanStep_LastBackup (hash : String → String) (patterns : List String)
    (acc : LocalState × List FileState) (f : FsFile) :
    (scanStep hash patterns acc f).1.LastBackup = acc.1.LastBackup := by
  by_cases hexcl : isExcluded f.relPath patterns = true
  · rw [scanStep_excluded hash patterns acc f hexcl]
  · have hexcl' : isExcluded f.relPath patterns = false :=
      Bool.eq_false_iff.2 hexcl
    cases hget : mapGet acc.1.Files f.relPath with
    | none => rw [scanStep_none hash patterns acc f hexcl' hget]
    | some r =>
      by_cases hchk : hash f.content = r.Checksum
      · by_cases hmt : f.modTime > r.ModTime
        · rw [scanStep_metaOnly hash patterns acc f r hexcl' hget hchk
            (Or.inl hmt)]
        · by_cases hsz : f.size = r.Size
          · rw [scanStep_notModified hash patterns acc f r hexcl' hget hmt
              hsz hchk]
          · rw [scanStep_metaOnly hash patterns acc f r hexcl' hget hchk
              (Or.inr hsz)]
      · rw [scanStep_contentChanged hash patterns acc f r hexcl' hget hchk]

theorem scanStep_get_ne (hash : String → String) (patterns : List String)
    (acc : LocalState × List FileState) (f : FsFile) (q : String)
    (h : q ≠ f.relPath) :
    mapGet (scanStep hash patterns acc f).1.Files q = mapGet acc.1.Files q := by
  by_cases hexcl : isExcluded f.relPath patterns = true
  · rw [scanStep_excluded hash patterns acc f hexcl]
  · have hexcl' : isExcluded f.relPath patterns = false :=
      Bool.eq_false_iff.2 hexcl
    cases hget : mapGet acc.1.Files f.relPath with
    | none =>
      rw [scanStep_none hash patterns acc f hexcl' hget]
      exact mapGet_mapSet_ne _ _ _ _ h
    | some r =>
      by_cases hchk : hash f.content = r.Checksum
      · by_cases hmt : f.modTime > r.ModTime
        · rw [scanStep_metaOnly hash patterns acc f r hexcl' hget hchk
            (Or.inl hmt)]
          exact mapGet_mapSet_ne _ _ _ _ h
        · by_cases hsz : f.size = r.Size
          · rw [scanStep_notModified hash patterns acc f r hexcl' hget hmt
              hsz hchk]
            exact mapGet_mapSet_ne _ _ _ _ h
          · rw [scanStep_metaOnly hash patterns acc f r hexcl' hget hchk
              (Or.inr hsz)]
            exact mapGet_mapSet_ne _ _ _ _ h
      · rw [scanStep_contentChanged hash patterns acc f r hexcl' hget hchk]
        exact mapGet_mapSet_ne _ _ _ _ h

theorem scanStep_synced_self (hash : String → String) (patterns : List String)
    (acc : LocalState × List FileState) (f : FsFile) :
    synced hash patterns (scanStep hash patterns acc f).1 f := by
  by_cases hexcl : isExcluded f.relPath patterns = true
  · exact Or.inl hexcl
  · have hexcl' : isExcluded f.relPath patterns = false :=
      Bool.eq_false_iff.2 hexcl
    right
    cases hget : mapGet acc.1.Files f.relPath with
    | none =>
      rw [scanStep_none hash patterns acc f hexcl' hget]
      exact ⟨_, mapGet_mapSet_self _ _ _, rfl, rfl, lt_irrefl _⟩
    | some r =>
      by_cases hchk : hash f.content = r.Checksum
      · by_cases hmt : f.modTime > r.ModTime
        · rw [scanStep_metaOnly hash patterns acc f r hexcl' hget hchk
            (Or.inl hmt)]
          exact ⟨_, mapGet_mapSet_self _ _ _, rfl, hchk.symm, lt_irrefl _⟩
        · by_cases hsz : f.size = r.Size
          · rw [scanStep_notModified hash patterns acc f r hexcl' hget hmt
              hsz hchk]
            exact ⟨_, mapGet_mapSet_self _ _ _, hsz.symm, hchk.symm, hmt⟩
          · rw [scanStep_metaOnly hash patterns acc f r hexcl' hget hchk
              (Or.inr hsz)]
            exact ⟨_, mapGet_mapSet_self _ _ _, rfl, hchk.symm, lt_irrefl _⟩
      · rw [scanStep_contentChanged hash patterns acc f r hexcl' hget hchk]
        exact ⟨_, mapGet_mapSet_self _ _ _, rfl, rfl, lt_irrefl _⟩

theorem synced_of_get_eq (hash : String → String) (patterns : List String)
    (st st' : LocalState) (f : FsFile)
    (h : mapGet st'.Files f.relPath = mapGet st.Files f.relPath)
    (hs : synced hash patterns st f) : synced hash patterns st' f := by
  rcases hs with hl | ⟨r, hget, h1, h2, h3⟩
  · exact Or.inl hl
  · exact Or.inr ⟨r, h.trans hget, h1, h2, h3⟩

theorem scanStep_synced_changed (hash : String → String)
    (patterns : List String) (acc : LocalState × List FileState) (f : FsFile)
    (hs : synced hash patterns acc.1 f) :
    (scanStep hash patterns acc f).2 = acc.2 := by
  by_cases hexcl : isExcluded f.relPath patterns = true
  · rw [scanStep_excluded hash patterns acc f hexcl]
  · have hexcl' : isExcluded f.relPath patterns = false :=
      Bool.eq_false_iff.2 hexcl
    rcases hs with hl | ⟨r, hget, h1, h2, h3⟩
    · exact absurd hl hexcl
    · rw [scanStep_notModified hash patterns acc f r hexcl' hget h3 h1.symm
        h2.symm]

/-! The fold over the walk -/

theorem scanFold_get_ne (hash : String → String) (patterns : List String)
    (fs : List FsFile) (acc : LocalState × List FileState) (q : String)
    (h : ∀ f ∈ fs, f.relPath ≠ q) :
    mapGet (fs.foldl (scanStep hash patterns) acc).1.Files q =
      mapGet acc.1.Files q := by
  induction fs generalizing acc with
  | nil => rfl
  | cons g rest ih =>
    rw [List.foldl_cons,
      ih _ (fun f hf => h f (List.mem_cons_of_mem g hf))]
    exact scanStep_get_ne hash patterns acc g q
      (fun he => h g (List.mem_cons_self g rest) he.symm)

theorem scanFold_LastBackup (hash : String → String) (patterns : List String)
    (fs : List FsFile) (acc : LocalState × List FileState) :
    (fs.foldl (scanStep hash patterns) acc).1.LastBackup =
      acc.1.LastBackup := by
  induction fs generalizing acc with
  | nil => rfl
  | cons g rest ih =>
    rw [List.foldl_cons, ih _, scanStep_LastBackup]

theorem scanFold_synced (hash : String → String) (patterns : List String)
    (fs : List FsFile) (acc : LocalState × List FileState)
    (hnd : (fs.map FsFile.relPath).Nodup) (f : FsFile) (hf : f ∈ fs) :
    synced hash patterns (fs.foldl (scanStep hash patterns) acc).1 f := by
  induction fs generalizing acc with
  | nil => cases hf
  | cons g rest ih =>
    rw [List.map_cons, List.nodup_cons] at hnd
    rw [List.foldl_cons]
    rcases List.mem_cons.1 hf with rfl | hmem
    · have hnotin : ∀ x ∈ rest, x.relPath ≠ f.relPath := by
        intro x hx he
        exact hnd.1 (he ▸ List.mem_map_of_mem FsFile.relPath hx)
      exact synced_of_get_eq hash patterns _ _ f
        (scanFold_get_ne hash patterns rest _ f.relPath hnotin)
        (scanStep_synced_self hash patterns acc f)
    · exact ih _ hnd.2 hmem

theorem scanFold_synced_changed (hash : String → String)
    (patterns : List String) (fs : List FsFile)
    (acc : LocalState × List FileState)
    (hnd : (fs.map FsFile.relPath).Nodup)
    (hall : ∀ f ∈ fs, synced hash patterns acc.1 f) :
    (fs.foldl (scanStep hash patterns) acc).2 = acc.2 := by
  induction fs generalizing acc with
  | nil => rfl
  | cons g rest ih =>
    rw [List.map_cons, List.nodup_cons] at hnd
    rw [List.foldl_cons]
    have hstep2 : (scanStep hash patterns acc g).2 = acc.2 :=
      scanStep_synced_changed hash patterns acc g
        (hall g (List.mem_cons_self g rest))
    rw [ih _ hnd.2 ?_, hstep2]
    intro f hf
    have hne : f.relPath ≠ g.relPath := fun he =>
      hnd.1 (he ▸ List.mem_map_of_mem FsFile.relPath hf)
    exact synced_of_get_eq hash patterns _ _ f
      (scanStep_get_ne hash patterns acc g f.relPath hne)
      (hall f (List.mem_cons_of_mem g hf))

theorem scanStep_changed_sub (hash : String → String)
    (patterns : List String) (acc : LocalState × List FileState) (f : FsFile)
    (x : FileState) (hx : x ∈ (scanStep hash patterns acc f).2) :
    x ∈ acc.2 ∨ x.Path = f.relPath := by
  by_cases hexcl : isExcluded f.relPath patterns = true
  · rw [scanStep_excluded hash patterns acc f hexcl] at hx
    exact Or.inl hx
  · have hexcl' : isExcluded f.relPath patterns = false :=
      Bool.eq_false_iff.2 hexcl
    cases hget : mapGet acc.1.Files f.relPath with
    | none =>
      rw [scanStep_none hash patterns acc f hexcl' hget] at hx
      rcases List.mem_append.1 hx with h | h
      · exact Or.inl h
      · simp at h
        exact Or.inr (by rw [h])
    | some r =>
      by_cases hchk : hash f.content = r.Checksum
      · by_cases hmt : f.modTime > r.ModTime
        · rw [scanStep_metaOnly hash patterns acc f r hexcl' hget hchk
            (Or.inl hmt)] at hx
          exact Or.inl hx
        · by_cases hsz : f.size = r.Size
          · rw [scanStep_notModified hash patterns acc f r hexcl' hget hmt
              hsz hchk] at hx
            exact Or.inl hx
          · rw [scanStep_metaOnly hash patterns acc f r hexcl' hget hchk
              (Or.inr hsz)] at hx
            exact Or.inl hx
      · rw [scanStep_contentChanged hash patterns acc f r hexcl' hget hchk]
          at hx
        rcases List.mem_append.1 hx with h | h
        · exact Or.inl h
        · simp at h
          exact Or.inr (by rw [h])

theorem scanFold_changed_paths (hash : String → String)
    (patterns : List String) (fs : List FsFile)
    (acc : LocalState × List FileState) (x : FileState)
    (hx : x ∈ (fs.foldl (scanStep hash patterns) acc).2) :
    x ∈ acc.2 ∨ x.Path ∈ fs.map FsFile.relPath := by
  induction fs generalizing acc with
  | nil => exact Or.inl hx
  | cons g rest ih =>
    rw [List.foldl_cons] at hx
    rcases ih _ hx with hin | hpath
    · rcases scanStep_changed_sub hash patterns acc g x hin with h1 | h2
      · exact Or.inl h1
      · exact Or.inr (by rw [List.map_cons]; exact h2 ▸ List.mem_cons_self _ _)
    · exact Or.inr (by rw [List.map_cons]; exact List.mem_cons_of_mem _ hpath)

/-! ## Upload-loop lemmas -/

theorem uploadStep_err (uploadErr : String → Bool)
    (acc : LocalState × Stats) (f : FileState)
    (h : uploadErr f.Path = true) :
    uploadStep uploadErr acc f =
      (acc.1, { acc.2 with failed := acc.2.failed + 1 }) := by
  simp [uploadStep, h]

theorem uploadStep_ok (uploadErr : String → Bool)
    (acc : LocalState × Stats) (f : FileState)
    (h : uploadErr f.Path = false) :
    uploadStep uploadErr acc f =
      ({ acc.1 with Files := mapSet acc.1.Files f.Path { f with BackedUp := true } },
       { acc.2 with uploaded := acc.2.uploaded + 1 }) := by
  simp [uploadStep, h]

theorem uploadPhase_stats (uploadErr : String → Bool) (cf : List FileState)
    (st : LocalState) (stats : Stats) :
    (uploadPhase uploadErr cf st stats).2 =
      { stats with failed := stats.failed + (cf.filter (fun f => uploadErr f.Path)).length, uploaded := stats.uploaded + (cf.filter (fun f => uploadErr f.Path = false)).length } := by
  induction cf generalizing st stats with
  | nil => simp [uploadPhase]
  | cons g rest ih =>
    unfold uploadPhase at ih ⊢
    rw [List.foldl_cons]
    by_cases hg : uploadErr g.Path = true
    · rw [uploadStep_err uploadErr (st, stats) g hg, ih]
      simp only [List.filter_cons, hg]
      simp [Stats.mk.injEq]
      omega
    · have hg' : uploadErr g.Path = false := Bool.eq_false_iff.2 hg
      rw [uploadStep_ok uploadErr (st, stats) g hg', ih]
      simp only [List.filter_cons, hg, hg']
      simp [Stats.mk.injEq]
      omega

theorem uploadPhase_get_ne (uploadErr : String → Bool) (cf : List FileState)
    (st : LocalState) (stats : Stats) (q : String)
    (h : ∀ f ∈ cf, f.Path ≠ q) :
    mapGet (uploadPhase uploadErr cf st stats).1.Files q =
      mapGet st.Files q := by
  induction cf generalizing st stats with
  | nil => rfl
  | cons g rest ih =>
    unfold uploadPhase at ih ⊢
    rw [List.foldl_cons]
    by_cases hg : uploadErr g.Path = true
    · rw [uploadStep_err uploadErr (st, stats) g hg]
      exact ih _ _ (fun f hf => h f (List.mem_cons_of_mem g hf))
    · have hg' : uploadErr g.Path = false := Bool.eq_false_iff.2 hg
      rw [uploadStep_ok uploadErr (st, stats) g hg']
      rw [ih _ _ (fun f hf => h f (List.mem_cons_of_mem g hf))]
      exact mapGet_mapSet_ne _ _ _ _
        (fun he => h g (List.mem_cons_self g rest) he.symm)

theorem uploadPhase_marks (uploadErr : String → Bool) (cf : List FileState)
    (st : LocalState) (stats : Stats)
    (hnd : (cf.map FileState.Path).Nodup) (f : FileState) (hf : f ∈ cf) :
    (uploadErr f.Path = false →
      mapGet (uploadPhase uploadErr cf st stats).1.Files f.Path =
        some { f with BackedUp := true }) ∧
    (uploadErr f.Path = true →
      mapGet (uploadPhase uploadErr cf st stats).1.Files f.Path =
        mapGet st.Files f.Path) := by
  induction cf generalizing st stats with
  | nil => cases hf
  | cons g rest ih =>
    rw [List.map_cons, List.nodup_cons] at hnd
    unfold uploadPhase at ih ⊢
    rw [List.foldl_cons]
    rcases List.mem_cons.1 hf with rfl | hmem
    · have hnotin : ∀ x ∈ rest, x.Path ≠ f.Path := by
        intro x hx he
        exact hnd.1 (he ▸ List.mem_map_of_mem FileState.Path hx)
      constructor
      · intro herr
        rw [uploadStep_ok uploadErr (st, stats) f herr]
        exact (uploadPhase_get_ne uploadErr rest _ _ f.Path hnotin).trans
          (mapGet_mapSet_self _ _ _)
      · intro herr
        rw [uploadStep_err uploadErr (st, stats) f herr]
        exact uploadPhase_get_ne uploadErr rest _ _ f.Path hnotin
    · have hne : g.Path ≠ f.Path := by
        intro he
        exact hnd.1 (he ▸ List.mem_map_of_mem FileState.Path hmem)
      constructor
      · intro herr
        exact (ih _ _ hnd.2 hmem).1 herr
      · intro herr
        by_cases hg : uploadErr g.Path = true
        · rw [uploadStep_err uploadErr (st, stats) g hg]
          exact (ih _ _ hnd.2 hmem).2 herr
        · have hg' : uploadErr g.Path = false := Bool.eq_false_iff.2 hg
          rw [uploadStep_ok uploadErr (st, stats) g hg']
          rw [(ih _ _ hnd.2 hmem).2 herr]
          exact mapGet_mapSet_ne _ _ _ _ (fun he => hne he.symm)

/-! ## Deletion-propagation lemmas -/

theorem syncDeleteStep_get_none (config : Config) (fs : List FsFile)
    (b2Files : List (String × RemoteObject)) (deleteOk : String → Bool)
    (acc : DelAcc) (relPath q : String)
    (h : mapGet acc.state.Files q = none) :
    mapGet (syncDeleteStep config fs b2Files deleteOk acc
      relPath).state.Files q = none := by
  unfold syncDeleteStep
  repeat' split
  all_goals first
    | exact h
    | exact mapGet_mapDel_none acc.state.Files relPath q h

theorem syncDeleteStep_names_mono (config : Config) (fs : List FsFile)
    (b2Files : List (String × RemoteObject)) (deleteOk : String → Bool)
    (acc : DelAcc) (relPath : String) (n : String)
    (h : n ∈ acc.deletedNames) :
    n ∈ (syncDeleteStep config fs b2Files deleteOk acc
      relPath).deletedNames := by
  unfold syncDeleteStep
  repeat' split
  all_goals first
    | exact h
    | exact List.mem_cons_of_mem _ h

theorem syncDeleteFold_get_none (config : Config) (fs : List FsFile)
    (b2Files : List (String × RemoteObject)) (deleteOk : String → Bool)
    (ks : List String) (acc : DelAcc) (q : String)
    (h : mapGet acc.state.Files q = none) :
    mapGet ((ks.foldl (syncDeleteStep config fs b2Files deleteOk)
      acc).state.Files) q = none := by
  induction ks generalizing acc with
  | nil => exact h
  | cons k rest ih =>
    rw [List.foldl_cons]
    exact ih _ (syncDeleteStep_get_none config fs b2Files deleteOk acc k q h)

theorem syncDeleteFold_names_mono (config : Config) (fs : List FsFile)
    (b2Files : List (String × RemoteObject)) (deleteOk : String → Bool)
    (ks : List String) (acc : DelAcc) (n : String)
    (h : n ∈ acc.deletedNames) :
    n ∈ (ks.foldl (syncDeleteStep config fs b2Files deleteOk)
      acc).deletedNames := by
  induction ks generalizing acc with
  | nil => exact h
  | cons k rest ih =>
    rw [List.foldl_cons]
    exact ih _ (syncDeleteStep_names_mono config fs b2Files deleteOk acc k n h)

theorem syncDeleteFold_deletes (config : Config) (fs : List FsFile)
    (b2Files : List (String × RemoteObject)) (deleteOk : String → Bool)
    (ks : List String) (acc : DelAcc) (p : String) (obj : RemoteObject)
    (hk : p ∈ ks)
    (hloc : fileExistsLocally fs p = false)
    (hexcl : isExcluded p config.ExcludePatterns = false)
    (hb2 : mapGet b2Files p = some obj)
    (hdel : deleteOk obj.Name = true) :
    mapGet ((ks.foldl (syncDeleteStep config fs b2Files deleteOk)
        acc).state.Files) p = none ∧
    obj.Name ∈ (ks.foldl (syncDeleteStep config fs b2Files deleteOk)
      acc).deletedNames := by
  induction ks generalizing acc with
  | nil => cases hk
  | cons k rest ih =>
    rw [List.foldl_cons]
    rcases List.mem_cons.1 hk with rfl | hmem
    · have hstep : syncDeleteStep config fs b2Files deleteOk acc p =
          ⟨{ acc.state with Files := mapDel acc.state.Files p },
           { acc.stats with deleted := acc.stats.deleted + 1 },
           obj.Name :: acc.deletedNames⟩ := by
        simp [syncDeleteStep, hloc, hexcl, hb2, hdel]
      rw [hstep]
      constructor
      · exact syncDeleteFold_get_none config fs b2Files deleteOk rest _ p
          (mapGet_mapDel_self acc.state.Files p)
      · exact syncDeleteFold_names_mono config fs b2Files deleteOk rest _
          obj.Name (List.mem_cons_self _ _)
    · exact ih _ hmem

theorem retentionPhase_subset (config : Config) (now : Int)
    (attrsOk deleteOk : String → Bool) (remote : List RemoteObject)
    (o : RemoteObject)
    (h : o ∈ retentionPhase config now attrsOk deleteOk remote) :
    o ∈ remote := by
  unfold retentionPhase at h
  split at h
  · unfold manageRetention at h
    exact (List.mem_filter.1 h).1
  · exact h

/-! ## Claim theorems -/

/-- C8: loading the manifest when no persisted manifest file exists at
the configured path succeeds and returns an empty manifest (empty records
map, zero lastRun) rather than an error; an error is returned only when
the file exists but cannot be opened or parsed. -/
theorem claim_C8 (config : Config) (disk : StateFileDisk) :
    (disk = .absent → loadLocalState config disk = .ok emptyLocalState) ∧
    emptyLocalState.Files = [] ∧ emptyLocalState.LastBackup = 0 ∧
    (∀ e : Unit, loadLocalState config disk = .error e →
      config.LocalStatePath ≠ "" ∧
        (disk = .unreadable ∨ disk = .corrupt)) := by
  refine ⟨?_, rfl, rfl, ?_⟩
  · intro h
    subst h
    unfold loadLocalState
    split <;> rfl
  · intro e herr
    unfold loadLocalState at herr
    by_cases hpath : config.LocalStatePath = ""
    · simp [hpath] at herr
    · refine ⟨hpath, ?_⟩
      rw [if_neg hpath] at herr
      cases disk <;> simp_all

/-- Witness for C8 at concrete inputs: with the state path configured and
the file absent, loading succeeds with the empty manifest; and a load
that errors out (here: an unreadable file) indeed had a configured path
and a present-but-unusable file. -/
theorem claim_C8_witness :
    loadLocalState ⟨"/src", 30, [], false, "backups/", "/var/backup/state.json",
        false, "basic"⟩ .absent = .ok emptyLocalState := by
  exact (claim_C8 ⟨"/src", 30, [], false, "backups/", "/var/backup/state.json",
    false, "basic"⟩ .absent).1 rfl

/-- C5: for the pattern list `["*.tmp", ".git/"]`, `isExcluded` returns
true on `a/b.tmp` (base-name glob match), true on `.git/config`
(directory-prefix match), and false on `notes.txt`; a pattern with no
slash is matched against the path's base name only (the exclusion
decision equals the glob match of the trimmed pattern against the base
name); and a pattern ending in `/` excludes the directory itself and
everything under it. -/
theorem claim_C5 :
    isExcluded "a/b.tmp" ["*.tmp", ".git/"] = true ∧
    isExcluded ".git/config" ["*.tmp", ".git/"] = true ∧
    isExcluded "notes.txt" ["*.tmp", ".git/"] = false ∧
    (∀ p path : String, trimSpace p ≠ "" →
      containsSlash (trimSpace p) = false →
      isExcluded path [p] = filepathMatch (trimSpace p) (base path)) ∧
    (∀ p path : String, endsWithSlash (trimSpace p) = true →
      (path = trimSuffixSlash (trimSpace p) ∨
        strHasPfx (trimSuffixSlash (trimSpace p) ++ "/") path = true) →
      isExcluded path [p] = true) := by
  refine ⟨by decide, by decide, by decide, ?_, ?_⟩
  · intro p path h1 h2
    have hEnds : endsWithSlash (trimSpace p) = false :=
      endsWithSlash_eq_false_of_containsSlash _ h2
    simp [isExcluded, toSlash, h1, hEnds, h2]
  · intro p path hEnds hunder
    have h1 : trimSpace p ≠ "" := ne_empty_of_endsWithSlash _ hEnds
    rcases hunder with heq | hpfx
    · simp [isExcluded, toSlash, h1, hEnds, heq]
    · simp [isExcluded, toSlash, h1, hEnds, hpfx]

/-- Witness for C5's quantified parts at concrete inputs: the no-slash
pattern `" *.tmp "` (trimmed) is matched against the base name of
`a/b.tmp`, and the directory pattern `".git/"` excludes both `.git`
itself and `.git/config`. -/
theorem claim_C5_witness :
    (isExcluded "a/b.tmp" [" *.tmp "] =
      filepathMatch (trimSpace " *.tmp ") (base "a/b.tmp")) ∧
    isExcluded ".git" [".git/"] = true ∧
    isExcluded ".git/config" [".git/"] = true := by
  refine ⟨?_, ?_, ?_⟩
  · exact claim_C5.2.2.2.1 " *.tmp " "a/b.tmp" (by decide) (by decide)
  · exact claim_C5.2.2.2.2 ".git/" ".git" (by decide) (Or.inl (by decide))
  · exact claim_C5.2.2.2.2 ".git/" ".git/config" (by decide)
      (Or.inr (by decide))

/-- C2 counterexample: the claim asserts that when the current mtime is
not after the stored one and the size is unchanged, the detector skips
the file, marking it uploaded, with an outcome independent of the current
byte content.  The code computes the checksum before the modified test
(main.go line 241) and the test includes checksum inequality (line 251):
with the digest instantiated to the identity, the record stores checksum
"abc", and a file of equal size and mtime, content "abc" is skipped but
content "xyz" is flagged as changed (with `BackedUp = false`), so the
outcome does depend on the byte content and the claimed skip does not
happen. -/
theorem claim_C2_counterexample :
    (scanStep (fun c => c) []
        (⟨0, [("a.txt", ⟨"a.txt", 3, 10, "abc", false⟩)]⟩, [])
        ⟨"a.txt", 3, 10, "abc"⟩).2 = [] ∧
    (scanStep (fun c => c) []
        (⟨0, [("a.txt", ⟨"a.txt", 3, 10, "abc", false⟩)]⟩, [])
        ⟨"a.txt", 3, 10, "xyz"⟩).2 = [⟨"a.txt", 3, 10, "xyz", false⟩] ∧
    mapGet (scanStep (fun c => c) []
        (⟨0, [("a.txt", ⟨"a.txt", 3, 10, "abc", false⟩)]⟩, [])
        ⟨"a.txt", 3, 10, "xyz"⟩).1.Files "a.txt" =
      some ⟨"a.txt", 3, 10, "xyz", false⟩ := by
  refine ⟨by decide, by decide, by decide⟩

/-- C2 amended: for every file encountered by change detection whose
manifest record exists, whose current modification time is not strictly
after the stored one, and whose current size equals the stored size, the
detector marks the record uploaded and skips the file exactly when the
freshly computed fingerprint also equals the stored checksum — the
fingerprint is computed unconditionally before the comparison, and when
it differs the file is flagged as changed, so the outcome depends on the
file's current byte content. -/
theorem claim_C2 (hash : String → String) (patterns : List String)
    (st : LocalState) (ch : List FileState) (f : FsFile) (r : FileState)
    (hexcl : isExcluded f.relPath patterns = false)
    (hget : mapGet st.Files f.relPath = some r)
    (hmt : ¬ f.modTime > r.ModTime)
    (hsz : f.size = r.Size) :
    (hash f.content = r.Checksum →
      scanStep hash patterns (st, ch) f =
        ({ st with Files := mapSet st.Files f.relPath { r with BackedUp := true } }, ch)) ∧
    (hash f.content ≠ r.Checksum →
      (scanStep hash patterns (st, ch) f).2 =
        ch ++ [⟨f.relPath, f.size, f.modTime, hash f.content, false⟩]) := by
  constructor
  · intro hchk
    simp [scanStep, hexcl, hget, hmt, hsz, hchk]
  · intro hchk
    simp [scanStep, hexcl, hget, hmt, hsz, hchk]

/-- Witness for C2 (amended) at concrete inputs: with an identity digest,
a record storing checksum "abc", and an on-disk file of equal size and
non-advanced mtime, content "abc" is skipped with the record marked
uploaded, while content "xyz" lands in the changed list. -/
theorem claim_C2_witness :
    scanStep (fun c => c) []
        (⟨0, [("a.txt", ⟨"a.txt", 3, 10, "abc", false⟩)]⟩, [])
        ⟨"a.txt", 3, 10, "abc"⟩ =
      (⟨0, [("a.txt", ⟨"a.txt", 3, 10, "abc", true⟩)]⟩, []) := by
  exact ((claim_C2 (fun c => c) []
    ⟨0, [("a.txt", ⟨"a.txt", 3, 10, "abc", false⟩)]⟩ []
    ⟨"a.txt", 3, 10, "abc"⟩ ⟨"a.txt", 3, 10, "abc", false⟩
    (by decide) (by decide) (by decide) (by decide)).1 (by decide)).trans
    (by decide)

/-- C4: for every file with an existing manifest record, if the file's
size and modification time observed on disk differ from the stored ones
but the freshly computed checksum equals the stored checksum, then change
detection does not add the file to the changed-file list, and updates the
record's modTime and size to the current values while marking it
uploaded. -/
theorem claim_C4 (hash : String → String) (patterns : List String)
    (st : LocalState) (ch : List FileState) (f : FsFile) (r : FileState)
    (hexcl : isExcluded f.relPath patterns = false)
    (hget : mapGet st.Files f.relPath = some r)
    (hsz : f.size ≠ r.Size)
    (hmt : f.modTime ≠ r.ModTime)
    (hchk : hash f.content = r.Checksum) :
    (scanStep hash patterns (st, ch) f).2 = ch ∧
    mapGet (scanStep hash patterns (st, ch) f).1.Files f.relPath =
      some { r with ModTime := f.modTime, Size := f.size, BackedUp := true } := by
  have hstep : scanStep hash patterns (st, ch) f =
      ({ st with Files := mapSet st.Files f.relPath { r with ModTime := f.modTime, Size := f.size, BackedUp := true } }, ch) := by
    simp [scanStep, hexcl, hget, hsz, hchk]
  rw [hstep]
  exact ⟨rfl, mapGet_mapSet_self _ _ _⟩

/-- Witness for C4 at concrete inputs: a record of size 3, mtime 10,
checksum "abc" (identity digest) against an on-disk file of size 4,
mtime 7, content "abc": not added to the changed list, and the record now
carries size 4, mtime 7, `BackedUp = true`. -/
theorem claim_C4_witness :
    (scanStep (fun c => c) []
        (⟨0, [("a.txt", ⟨"a.txt", 3, 10, "abc", false⟩)]⟩, [])
        ⟨"a.txt", 4, 7, "abc"⟩).2 = [] ∧
    mapGet (scanStep (fun c => c) []
        (⟨0, [("a.txt", ⟨"a.txt", 3, 10, "abc", false⟩)]⟩, [])
        ⟨"a.txt", 4, 7, "abc"⟩).1.Files "a.txt" =
      some ⟨"a.txt", 4, 7, "abc", true⟩ := by
  exact claim_C4 (fun c => c) []
    ⟨0, [("a.txt", ⟨"a.txt", 3, 10, "abc", false⟩)]⟩ []
    ⟨"a.txt", 4, 7, "abc"⟩ ⟨"a.txt", 3, 10, "abc", false⟩
    (by decide) (by decide) (by decide) (by decide) (by decide)

/-- C10: during deletion propagation, for a locally deleted, non-excluded
manifest path: with no corresponding remote object nothing changes at all
(entry kept, no counter moves); with a remote object whose delete fails,
the manifest is kept unchanged and only the failed counter moves; with a
remote object whose delete succeeds, the path is removed from the
manifest and the deleted counter moves — so a path is removed exactly
when its remote object existed and its delete call succeeded. -/
theorem claim_C10 (config : Config) (fs : List FsFile)
    (b2Files : List (String × RemoteObject)) (deleteOk : String → Bool)
    (acc : DelAcc) (relPath : String)
    (hloc : fileExistsLocally fs relPath = false)
    (hexcl : isExcluded relPath config.ExcludePatterns = false) :
    (mapGet b2Files relPath = none →
      syncDeleteStep config fs b2Files deleteOk acc relPath = acc) ∧
    (∀ obj : RemoteObject, mapGet b2Files relPath = some obj →
      deleteOk obj.Name = false →
      (syncDeleteStep config fs b2Files deleteOk acc relPath).state =
        acc.state ∧
      (syncDeleteStep config fs b2Files deleteOk acc relPath).stats =
        { acc.stats with failed := acc.stats.failed + 1 }) ∧
    (∀ obj : RemoteObject, mapGet b2Files relPath = some obj →
      deleteOk obj.Name = true →
      mapGet (syncDeleteStep config fs b2Files deleteOk acc
          relPath).state.Files relPath = none ∧
      (syncDeleteStep config fs b2Files deleteOk acc relPath).stats =
        { acc.stats with deleted := acc.stats.deleted + 1 }) := by
  refine ⟨?_, ?_, ?_⟩
  · intro hnone
    simp [syncDeleteStep, hloc, hexcl, hnone]
  · intro obj hsome hdel
    constructor <;> simp [syncDeleteStep, hloc, hexcl, hsome, hdel]
  · intro obj hsome hdel
    constructor
    · simp only [syncDeleteStep, hloc, hexcl, hsome, hdel]
      simp [mapGet_mapDel_self]
    · simp [syncDeleteStep, hloc, hexcl, hsome, hdel]

/-- Witness for C10 at concrete inputs: path "x.txt" locally deleted and
not excluded; with an empty remote index the accumulator is untouched,
and with a remote object present and a succeeding delete the manifest
entry is gone and the deleted counter moves. -/
theorem claim_C10_witness :
    syncDeleteStep ⟨"/src", 30, [], true, "backups/", "s", false, "basic"⟩
        [] [] (fun _ => true)
        ⟨⟨0, [("x.txt", ⟨"x.txt", 1, 1, "c", true⟩)]⟩, ⟨0, 0, 0, 0⟩, []⟩
        "x.txt" =
      ⟨⟨0, [("x.txt", ⟨"x.txt", 1, 1, "c", true⟩)]⟩, ⟨0, 0, 0, 0⟩, []⟩ ∧
    mapGet (syncDeleteStep
        ⟨"/src", 30, [], true, "backups/", "s", false, "basic"⟩
        [] [("x.txt", ⟨"backups/x.txt", 5⟩)] (fun _ => true)
        ⟨⟨0, [("x.txt", ⟨"x.txt", 1, 1, "c", true⟩)]⟩, ⟨0, 0, 0, 0⟩, []⟩
        "x.txt").state.Files "x.txt" = none := by
  constructor
  · exact (claim_C10 ⟨"/src", 30, [], true, "backups/", "s", false, "basic"⟩
      [] [] (fun _ => true)
      ⟨⟨0, [("x.txt", ⟨"x.txt", 1, 1, "c", true⟩)]⟩, ⟨0, 0, 0, 0⟩, []⟩
      "x.txt" (by decide) (by decide)).1 (by decide)
  · exact ((claim_C10 ⟨"/src", 30, [], true, "backups/", "s", false, "basic"⟩
      [] [("x.txt", ⟨"backups/x.txt", 5⟩)] (fun _ => true)
      ⟨⟨0, [("x.txt", ⟨"x.txt", 1, 1, "c", true⟩)]⟩, ⟨0, 0, 0, 0⟩, []⟩
      "x.txt" (by decide) (by decide)).2.2 ⟨"backups/x.txt", 5⟩
      (by decide) (by decide)).1

/-- C6: during the retention sweep with cutoff `now - RetentionDays`
(in seconds), every listed object under the prefix whose upload timestamp
is strictly before the cutoff is deleted (given that its attributes fetch
and its delete call succeed), every object whose upload timestamp is at
or after the cutoff survives, and the sweep is not run at all when the
configured retention days value is zero or negative. -/
theorem claim_C6 (config : Config) (now : Int)
    (attrsOk deleteOk : String → Bool) (remote : List RemoteObject)
    (obj : RemoteObject) :
    (config.RetentionDays > 0 → obj ∈ remote →
      strHasPfx config.BackupPfx obj.Name = true →
      attrsOk obj.Name = true → deleteOk obj.Name = true →
      obj.UploadTimestamp < now - config.RetentionDays * 86400 →
      obj ∉ retentionPhase config now attrsOk deleteOk remote) ∧
    (obj ∈ remote →
      now - config.RetentionDays * 86400 ≤ obj.UploadTimestamp →
      obj ∈ retentionPhase config now attrsOk deleteOk remote) ∧
    (config.RetentionDays ≤ 0 →
      retentionPhase config now attrsOk deleteOk remote = remote) := by
  refine ⟨?_, ?_, ?_⟩
  · intro hdays hmem hpfx hattrs hdel hbefore
    intro hmemFilter
    rw [retentionPhase, if_pos hdays] at hmemFilter
    have := (List.mem_filter.1 hmemFilter).2
    simp [manageRetention, hpfx, hattrs, hdel, hbefore] at this
  · intro hmem hafter
    unfold retentionPhase
    split
    · refine List.mem_filter.2 ⟨hmem, ?_⟩
      have hnotlt : ¬ obj.UploadTimestamp < now - config.RetentionDays * 86400 :=
        not_lt.2 hafter
      by_cases hpfx : strHasPfx config.BackupPfx obj.Name = false
      · simp [manageRetention, hpfx]
      · by_cases hattrs : attrsOk obj.Name = false
        · simp [manageRetention, hpfx, hattrs]
        · simp [manageRetention, hpfx, hattrs, hnotlt]
    · exact hmem
  · intro hdays
    rw [retentionPhase, if_neg (not_lt.2 hdays)]

/-- Witness for C6 at concrete inputs: with 7 retention days and
`now = 1000000`, an object uploaded one second before the cutoff
(timestamp `1000000 - 7 * 86400 - 1`) is swept away while an object
uploaded one second after the cutoff survives, and with retention zero
the listing is untouched. -/
theorem claim_C6_witness :
    (⟨"backups/old.txt", 395199⟩ : RemoteObject) ∉
      retentionPhase ⟨"/src", 7, [], false, "backups/", "s", false, "basic"⟩
        1000000 (fun _ => true) (fun _ => true)
        [⟨"backups/old.txt", 395199⟩, ⟨"backups/new.txt", 395201⟩] ∧
    (⟨"backups/new.txt", 395201⟩ : RemoteObject) ∈
      retentionPhase ⟨"/src", 7, [], false, "backups/", "s", false, "basic"⟩
        1000000 (fun _ => true) (fun _ => true)
        [⟨"backups/old.txt", 395199⟩, ⟨"backups/new.txt", 395201⟩] ∧
    retentionPhase ⟨"/src", 0, [], false, "backups/", "s", false, "basic"⟩
        1000000 (fun _ => true) (fun _ => true)
        [⟨"backups/old.txt", 395199⟩] = [⟨"backups/old.txt", 395199⟩] := by
  refine ⟨?_, ?_, ?_⟩
  · exact (claim_C6 ⟨"/src", 7, [], false, "backups/", "s", false, "basic"⟩
      1000000 (fun _ => true) (fun _ => true)
      [⟨"backups/old.txt", 395199⟩, ⟨"backups/new.txt", 395201⟩]
      ⟨"backups/old.txt", 395199⟩).1 (by decide) (by decide) (by decide)
      (by decide) (by decide) (by decide)
  · exact (claim_C6 ⟨"/src", 7, [], false, "backups/", "s", false, "basic"⟩
      1000000 (fun _ => true) (fun _ => true)
      [⟨"backups/old.txt", 395199⟩, ⟨"backups/new.txt", 395201⟩]
      ⟨"backups/new.txt", 395201⟩).2.1 (by decide) (by decide)
  · exact (claim_C6 ⟨"/src", 0, [], false, "backups/", "s", false, "basic"⟩
      1000000 (fun _ => true) (fun _ => true)
      [⟨"backups/old.txt", 395199⟩] ⟨"backups/old.txt", 395199⟩).2.2
      (by decide)

/-- C3: for every source tree (a walk with distinct relative paths, as a
filesystem guarantees) and manifest, running change detection once (which
mutates the manifest) and then running it a second time with no
filesystem changes in between yields an empty changed-file list on the
second run. -/
theorem claim_C3 (hash : String → String) (patterns : List String)
    (fs : List FsFile) (st : LocalState)
    (hnd : (fs.map FsFile.relPath).Nodup) :
    (scanAndCompareFiles hash patterns fs
      (scanAndCompareFiles hash patterns fs st).1).2 = [] := by
  unfold scanAndCompareFiles
  apply scanFold_synced_changed hash patterns fs _ hnd
  intro f hf
  exact scanFold_synced hash patterns fs (st, []) hnd f hf

/-- Witness for C3 at concrete inputs: scanning a two-file tree twice
from the empty manifest reports no changes the second time. -/
theorem claim_C3_witness :
    (scanAndCompareFiles (fun c => c) ["*.tmp"]
      [⟨"a.txt", 3, 10, "abc"⟩, ⟨"b.txt", 2, 5, "xy"⟩]
      (scanAndCompareFiles (fun c => c) ["*.tmp"]
        [⟨"a.txt", 3, 10, "abc"⟩, ⟨"b.txt", 2, 5, "xy"⟩]
        emptyLocalState).1).2 = [] := by
  exact claim_C3 (fun c => c) ["*.tmp"]
    [⟨"a.txt", 3, 10, "abc"⟩, ⟨"b.txt", 2, 5, "xy"⟩] emptyLocalState
    (by decide)

/-- C9: if change detection returns an empty changed-file list, the
program returns immediately with exit status zero and performs no further
work: no remote listing, no uploads, no deletion propagation (even when
sync-delete is enabled and the manifest contains locally deleted paths),
no retention sweep, and the manifest file is not rewritten (so lastBackup
is not updated: the in-memory manifest keeps the loaded `LastBackup` and
is never saved). -/
theorem claim_C9 (hash : String → String) (config : Config)
    (fs : List FsFile) (state0 : LocalState) (remote : List RemoteObject)
    (uploadErr deleteOk attrsOk : String → Bool) (now : Int)
    (h : (scanAndCompareFiles hash config.ExcludePatterns fs state0).2 = []) :
    runBackup hash config fs state0 remote uploadErr deleteOk attrsOk now =
      { finalState := (scanAndCompareFiles hash config.ExcludePatterns fs state0).1
        savedState := none
        remote := remote
        stats := ⟨0, 0, 0, 0⟩
        listedB2 := false
        uploadAttempts := []
        exitCode := 0 } ∧
    (scanAndCompareFiles hash config.ExcludePatterns fs state0).1.LastBackup =
      state0.LastBackup := by
  constructor
  · simp [runBackup, h]
  · unfold scanAndCompareFiles
    exact scanFold_LastBackup hash config.ExcludePatterns fs (state0, [])

/-- Witness for C9 at concrete inputs: an empty walk with a manifest that
still lists `x.txt`, sync-delete enabled and a remote object present —
the run exits 0 having listed nothing, uploaded nothing, deleted nothing
remotely, and saved nothing. -/
theorem claim_C9_witness :
    runBackup (fun c => c)
      ⟨"/src", 30, [], true, "backups/", "s", false, "basic"⟩
      [] ⟨7, [("x.txt", ⟨"x.txt", 1, 1, "c", true⟩)]⟩
      [⟨"backups/x.txt", 5⟩] (fun _ => false) (fun _ => true) (fun _ => true)
      999 =
    { finalState := ⟨7, [("x.txt", ⟨"x.txt", 1, 1, "c", true⟩)]⟩, savedState := none, remote := [⟨"backups/x.txt", 5⟩], stats := ⟨0, 0, 0, 0⟩, listedB2 := false, uploadAttempts := [], exitCode := 0 } := by
  exact ((claim_C9 (fun c => c)
    ⟨"/src", 30, [], true, "backups/", "s", false, "basic"⟩
    [] ⟨7, [("x.txt", ⟨"x.txt", 1, 1, "c", true⟩)]⟩
    [⟨"backups/x.txt", 5⟩] (fun _ => false) (fun _ => true) (fun _ => true)
    999 (by decide)).1).trans (by decide)

/-- C7: in the upload loop over the changed-file list (whose records the
scan stored in the manifest with `BackedUp = false`), a transfer failure
for one file increments the run's failure counter by one and leaves that
file's record's uploaded flag false, files whose upload succeeds are
marked uploaded, one file's failure never stops the loop (every file
contributes to the final counters: uploaded plus failed counts split the
whole list), and a non-empty changed list always drives the run through
the full pipeline — upload, deletion and retention phases — regardless
of upload failures. -/
theorem claim_C7 (uploadErr : String → Bool) (cf : List FileState)
    (st : LocalState) (stats : Stats)
    (hnd : (cf.map FileState.Path).Nodup)
    (hrec : ∀ f ∈ cf, mapGet st.Files f.Path = some f ∧ f.BackedUp = false) :
    (uploadPhase uploadErr cf st stats).2 =
      { stats with failed := stats.failed + (cf.filter (fun f => uploadErr f.Path)).length, uploaded := stats.uploaded + (cf.filter (fun f => uploadErr f.Path = false)).length } ∧
    (∀ f ∈ cf, uploadErr f.Path = false →
      mapGet (uploadPhase uploadErr cf st stats).1.Files f.Path =
        some { f with BackedUp := true }) ∧
    (∀ f ∈ cf, uploadErr f.Path = true →
      mapGet (uploadPhase uploadErr cf st stats).1.Files f.Path = some f ∧
        f.BackedUp = false) ∧
    (∀ (hash : String → String) (config : Config) (fs : List FsFile)
        (state0 : LocalState) (remote : List RemoteObject)
        (deleteOk attrsOk : String → Bool) (now : Int),
      (scanAndCompareFiles hash config.ExcludePatterns fs state0).2 ≠ [] →
      runBackup hash config fs state0 remote uploadErr deleteOk attrsOk now =
        runAfterScan config fs remote uploadErr deleteOk attrsOk now
          (scanAndCompareFiles hash config.ExcludePatterns fs state0).1
          (scanAndCompareFiles hash config.ExcludePatterns fs state0).2) := by
  refine ⟨uploadPhase_stats uploadErr cf st stats, ?_, ?_, ?_⟩
  · intro f hf herr
    exact (uploadPhase_marks uploadErr cf st stats hnd f hf).1 herr
  · intro f hf herr
    refine ⟨?_, (hrec f hf).2⟩
    rw [(uploadPhase_marks uploadErr cf st stats hnd f hf).2 herr]
    exact (hrec f hf).1
  · intro hash config fs state0 remote deleteOk attrsOk now h
    cases hsc : (scanAndCompareFiles hash config.ExcludePatterns fs state0).2
      with
    | nil => exact absurd hsc h
    | cons a l => simp [runBackup, hsc]

/-- Witness for C7 at concrete inputs: three changed files A, B, C with
only B's transfer failing — the failure counter ends at 1, A and C are
marked uploaded in the manifest, and B's record keeps `BackedUp =
false`. -/
theorem claim_C7_witness :
    (uploadPhase (fun s => s == "B")
      [⟨"A", 1, 1, "a", false⟩, ⟨"B", 1, 1, "b", false⟩, ⟨"C", 1, 1, "c", false⟩]
      ⟨0, [("A", ⟨"A", 1, 1, "a", false⟩), ("B", ⟨"B", 1, 1, "b", false⟩), ("C", ⟨"C", 1, 1, "c", false⟩)]⟩
      ⟨0, 0, 0, 0⟩).2.failed = 1 ∧
    mapGet (uploadPhase (fun s => s == "B")
      [⟨"A", 1, 1, "a", false⟩, ⟨"B", 1, 1, "b", false⟩, ⟨"C", 1, 1, "c", false⟩]
      ⟨0, [("A", ⟨"A", 1, 1, "a", false⟩), ("B", ⟨"B", 1, 1, "b", false⟩), ("C", ⟨"C", 1, 1, "c", false⟩)]⟩
      ⟨0, 0, 0, 0⟩).1.Files "A" = some ⟨"A", 1, 1, "a", true⟩ ∧
    mapGet (uploadPhase (fun s => s == "B")
      [⟨"A", 1, 1, "a", false⟩, ⟨"B", 1, 1, "b", false⟩, ⟨"C", 1, 1, "c", false⟩]
      ⟨0, [("A", ⟨"A", 1, 1, "a", false⟩), ("B", ⟨"B", 1, 1, "b", false⟩), ("C", ⟨"C", 1, 1, "c", false⟩)]⟩
      ⟨0, 0, 0, 0⟩).1.Files "C" = some ⟨"C", 1, 1, "c", true⟩ ∧
    mapGet (uploadPhase (fun s => s == "B")
      [⟨"A", 1, 1, "a", false⟩, ⟨"B", 1, 1, "b", false⟩, ⟨"C", 1, 1, "c", false⟩]
      ⟨0, [("A", ⟨"A", 1, 1, "a", false⟩), ("B", ⟨"B", 1, 1, "b", false⟩), ("C", ⟨"C", 1, 1, "c", false⟩)]⟩
      ⟨0, 0, 0, 0⟩).1.Files "B" = some ⟨"B", 1, 1, "b", false⟩ := by
  have h := claim_C7 (fun s => s == "B")
    [⟨"A", 1, 1, "a", false⟩, ⟨"B", 1, 1, "b", false⟩, ⟨"C", 1, 1, "c", false⟩]
    ⟨0, [("A", ⟨"A", 1, 1, "a", false⟩), ("B", ⟨"B", 1, 1, "b", false⟩), ("C", ⟨"C", 1, 1, "c", false⟩)]⟩
    ⟨0, 0, 0, 0⟩ (by decide) (by decide)
  refine ⟨?_, ?_, ?_, ?_⟩
  · rw [h.1]
    decide
  · exact h.2.1 ⟨"A", 1, 1, "a", false⟩ (by decide) (by decide)
  · exact h.2.1 ⟨"C", 1, 1, "c", false⟩ (by decide) (by decide)
  · exact (h.2.2.1 ⟨"B", 1, 1, "b", false⟩ (by decide) (by decide)).1

/-- C1 counterexample: the claim requires deletion propagation for every
filesystem state at re-run time, "including when no other file changed".
With sync-delete enabled, the manifest containing `x.txt`, the remote
object present, every collaborator call succeeding, and `x.txt` removed
while nothing else changed (the walk is empty), the change detector
returns an empty list and the run exits at the early-out (main.go
611-615) before the deletion phase: the remote object survives, the
manifest still contains `x.txt`, and nothing is saved. -/
theorem claim_C1_counterexample :
    (runBackup (fun c => c) ⟨"/src", 0, [], true, "backups/", "s", false, "basic"⟩
      [] ⟨0, [("x.txt", ⟨"x.txt", 1, 1, "c", true⟩)]⟩ [⟨"backups/x.txt", 5⟩]
      (fun _ => true) (fun _ => true) (fun _ => true) 100).remote =
      [⟨"backups/x.txt", 5⟩] ∧
    mapGet (runBackup (fun c => c)
      ⟨"/src", 0, [], true, "backups/", "s", false, "basic"⟩
      [] ⟨0, [("x.txt", ⟨"x.txt", 1, 1, "c", true⟩)]⟩ [⟨"backups/x.txt", 5⟩]
      (fun _ => true) (fun _ => true) (fun _ => true) 100).finalState.Files
      "x.txt" = some ⟨"x.txt", 1, 1, "c", true⟩ ∧
    (runBackup (fun c => c) ⟨"/src", 0, [], true, "backups/", "s", false, "basic"⟩
      [] ⟨0, [("x.txt", ⟨"x.txt", 1, 1, "c", true⟩)]⟩ [⟨"backups/x.txt", 5⟩]
      (fun _ => true) (fun _ => true) (fun _ => true) 100).savedState =
      none := by
  refine ⟨by decide, by decide, by decide⟩

/-- C1 amended: for every manifest containing a path `p` with sync-delete
enabled, if `p` is removed from the source tree and the program is
re-run, and the re-run detects at least one changed file (otherwise the
run exits before the deletion phase), and `p` is not excluded, its remote
object is in the listing and the remote delete call succeeds, then at the
end of the run no remote object with that name remains, the manifest no
longer contains `p`, and the manifest is persisted. -/
theorem claim_C1 (hash : String → String) (config : Config)
    (fs : List FsFile) (state0 : LocalState) (remote : List RemoteObject)
    (uploadErr deleteOk attrsOk : String → Bool) (now : Int)
    (p : String) (r : FileState) (obj : RemoteObject)
    (hsync : config.SyncDelete = true)
    (hget : mapGet state0.Files p = some r)
    (hfs : ∀ f ∈ fs, f.relPath ≠ p)
    (hexcl : isExcluded p config.ExcludePatterns = false)
    (hb2 : mapGet (getB2Files config remote) p = some obj)
    (hdel : deleteOk obj.Name = true)
    (hch : (scanAndCompareFiles hash config.ExcludePatterns fs state0).2 ≠ []) :
    mapGet (runBackup hash config fs state0 remote uploadErr deleteOk
      attrsOk now).finalState.Files p = none ∧
    (runBackup hash config fs state0 remote uploadErr deleteOk
      attrsOk now).savedState =
      some (runBackup hash config fs state0 remote uploadErr deleteOk
        attrsOk now).finalState ∧
    ∀ o ∈ (runBackup hash config fs state0 remote uploadErr deleteOk
      attrsOk now).remote, o.Name ≠ obj.Name := by
  have hrun : runBackup hash config fs state0 remote uploadErr deleteOk
      attrsOk now =
      runAfterScan config fs remote uploadErr deleteOk attrsOk now
        (scanAndCompareFiles hash config.ExcludePatterns fs state0).1
        (scanAndCompareFiles hash config.ExcludePatterns fs state0).2 := by
    cases hsc : (scanAndCompareFiles hash config.ExcludePatterns fs state0).2
      with
    | nil => exact absurd hsc hch
    | cons a l => simp [runBackup, hsc]
  have hscan_get : mapGet (scanAndCompareFiles hash config.ExcludePatterns
      fs state0).1.Files p = some r := by
    unfold scanAndCompareFiles
    exact (scanFold_get_ne hash config.ExcludePatterns fs (state0, []) p
      hfs).trans hget
  have hchanged_ne : ∀ f ∈ (scanAndCompareFiles hash config.ExcludePatterns
      fs state0).2, f.Path ≠ p := by
    intro f hf he
    rcases scanFold_changed_paths hash config.ExcludePatterns fs
      (state0, []) f hf with h0 | hp
    · exact absurd h0 (List.not_mem_nil f)
    · rcases List.mem_map.1 hp with ⟨g, hg, hge⟩
      exact hfs g hg (by rw [hge, he])
  have hup_get : mapGet (uploadPhase uploadErr
      (scanAndCompareFiles hash config.ExcludePatterns fs state0).2
      (scanAndCompareFiles hash config.ExcludePatterns fs state0).1
      ⟨0, 0, 0, 0⟩).1.Files p = some r :=
    (uploadPhase_get_ne uploadErr _ _ _ p hchanged_ne).trans hscan_get
  have hkey : p ∈ ((uploadPhase uploadErr
      (scanAndCompareFiles hash config.ExcludePatterns fs state0).2
      (scanAndCompareFiles hash config.ExcludePatterns fs state0).1
      ⟨0, 0, 0, 0⟩).1.Files.map Prod.fst) :=
    mem_keys_of_mapGet_some _ _ _ hup_get
  have hlocF : fileExistsLocally fs p = false := by
    simp only [fileExistsLocally, List.any_eq_false, decide_eq_true_eq]
    exact hfs
  have hAD := syncDeleteFold_deletes config fs (getB2Files config remote)
    deleteOk
    ((uploadPhase uploadErr
      (scanAndCompareFiles hash config.ExcludePatterns fs state0).2
      (scanAndCompareFiles hash config.ExcludePatterns fs state0).1
      ⟨0, 0, 0, 0⟩).1.Files.map Prod.fst)
    ⟨(uploadPhase uploadErr
      (scanAndCompareFiles hash config.ExcludePatterns fs state0).2
      (scanAndCompareFiles hash config.ExcludePatterns fs state0).1
      ⟨0, 0, 0, 0⟩).1,
     (uploadPhase uploadErr
      (scanAndCompareFiles hash config.ExcludePatterns fs state0).2
      (scanAndCompareFiles hash config.ExcludePatterns fs state0).1
      ⟨0, 0, 0, 0⟩).2, []⟩
    p obj hkey hlocF hexcl hb2 hdel
  rw [hrun]
  unfold runAfterScan
  simp only [hsync, if_true]
  refine ⟨hAD.1, trivial, ?_⟩
  intro o ho he
  have ho1 := retentionPhase_subset config now attrsOk deleteOk _ o ho
  have ho2 := (List.mem_filter.1 ho1).2
  rw [decide_eq_true_eq] at ho2
  exact ho2 (he ▸ hAD.2)

/-- Witness for C1 (amended) at concrete inputs: manifest with `x.txt`
and `other.txt`, source tree now holding only a modified `other.txt`
(so the changed list is non-empty), remote listing holding
`backups/x.txt`, all collaborator calls succeeding: after the run the
manifest (in memory and as saved) no longer contains `x.txt` and no
remote object named `backups/x.txt` survives. -/
theorem claim_C1_witness :
    mapGet (runBackup (fun c => c)
      ⟨"/src", 0, [], true, "backups/", "s", false, "basic"⟩
      [⟨"other.txt", 2, 9, "zz"⟩]
      ⟨0, [("x.txt", ⟨"x.txt", 1, 1, "c", true⟩), ("other.txt", ⟨"other.txt", 1, 1, "q", true⟩)]⟩
      [⟨"backups/x.txt", 5⟩] (fun _ => false) (fun _ => true) (fun _ => true)
      100).finalState.Files "x.txt" = none ∧
    ∀ o ∈ (runBackup (fun c => c)
      ⟨"/src", 0, [], true, "backups/", "s", false, "basic"⟩
      [⟨"other.txt", 2, 9, "zz"⟩]
      ⟨0, [("x.txt", ⟨"x.txt", 1, 1, "c", true⟩), ("other.txt", ⟨"other.txt", 1, 1, "q", true⟩)]⟩
      [⟨"backups/x.txt", 5⟩] (fun _ => false) (fun _ => true) (fun _ => true)
      100).remote, o.Name ≠ "backups/x.txt" := by
  have h := claim_C1 (fun c => c)
    ⟨"/src", 0, [], true, "backups/", "s", false, "basic"⟩
    [⟨"other.txt", 2, 9, "zz"⟩]
    ⟨0, [("x.txt", ⟨"x.txt", 1, 1, "c", true⟩), ("other.txt", ⟨"other.txt", 1, 1, "q", true⟩)]⟩
    [⟨"backups/x.txt", 5⟩] (fun _ => false) (fun _ => true) (fun _ => true)
    100 "x.txt" ⟨"x.txt", 1, 1, "c", true⟩ ⟨"backups/x.txt", 5⟩
    (by decide) (by decide) (by decide) (by decide) (by decide) (by decide)
    (by decide)
  exact ⟨h.1, h.2.2⟩

end B2Go
